import Mathlib

/-!
Verification development for a two-stage social-media stock-sentiment pipeline:
a harvest stage (`scraping_lambda.py`) that discovers trending tickers, collects
posts, deduplicates and persists them to partitioned object storage, and an
event-driven enrichment stage (`enrichment_lambda.py`) that classifies each post
via an external inference endpoint and rewrites the enriched file.

The embedding is shallow: Python values passed through JSON are modelled by the
`Json` inductive; the object store is an association list from keys to stored
values; the external services (HTTP search, the inference endpoint, storage
transport failures) are oracles supplied as explicit function parameters.
Numbers are modelled as rationals (the code performs no arithmetic on them,
only comparisons and reserialization). Python exceptions are modelled with
`Except`: a raised exception is an `Except.error` that each translated
function propagates exactly where the source propagates it.
-/

/-- JSON values as deserialized by `json.loads`: null, booleans, numbers,
strings, arrays and objects (objects as insertion-ordered association lists,
matching Python dict semantics for the keys this program uses). -/
inductive Json where
  | null
  | bool (b : Bool)
  | num (q : ℚ)
  | str (s : String)
  | arr (elems : List Json)
  | obj (fields : List (String × Json))

/-- Lookup in an association list, first binding wins (Python dict access
on the unique-key dicts this program manipulates). -/
def lookupA {κ α : Type} [DecidableEq κ] : List (κ × α) → κ → Option α
  | [], _ => none
  | (k', x) :: rest, k => if k' = k then some x else lookupA rest k

/-- Update-or-append in an association list: Python `d[k] = v` keeps the
position of an existing key and appends a new key at the end; it is also the
model of an object-store `put` (overwrite-or-create). -/
def setA {κ α : Type} [DecidableEq κ] : List (κ × α) → κ → α → List (κ × α)
  | [], k, x => [(k, x)]
  | (k', y) :: rest, k, x => if k' = k then (k, x) :: rest else (k', y) :: setA rest k x

/-- Remove a key from an association list: the model of an object-store
`delete`. -/
def removeA {κ α : Type} [DecidableEq κ] : List (κ × α) → κ → List (κ × α)
  | [], _ => []
  | (k', y) :: rest, k => if k' = k then removeA rest k else (k', y) :: removeA rest k

/-- Python truthiness for JSON-shaped values: `None`, `False`, `0`, `""`,
`[]` and the empty dict are falsy, everything else is truthy. -/
def pyTruthy : Json → Bool
  | .null => false
  | .bool b => b
  | .num q => decide (q ≠ 0)
  | .str s => decide (s ≠ "")
  | .arr xs => !xs.isEmpty
  | .obj kvs => !kvs.isEmpty

/-- Python `a or b or ...` over optional dict lookups (`dict.get` returns
`None` for a missing key, which is falsy): the first truthy value wins, and
the final `or ""` fallback yields the empty string. -/
def orChain : List (Option Json) → Json
  | [] => .str ""
  | none :: rest => orChain rest
  | some v :: rest => if pyTruthy v then v else orChain rest

/-- Python `str.strip()` with no arguments: drop whitespace from both ends. -/
def pyStrip (s : String) : String :=
  String.mk (((s.toList.dropWhile Char.isWhitespace).reverse.dropWhile Char.isWhitespace).reverse)

/-- Python `s[:n]` on a string: keep the first `n` characters. -/
def pyTake (s : String) (n : Nat) : String := String.mk (s.toList.take n)

/-- Helper for suffix tests: does the first char list start with the second. -/
def leadMatch : List Char → List Char → Bool
  | _, [] => true
  | [], _ :: _ => false
  | a :: as, b :: bs => a = b && leadMatch as bs

/-- Python `s.endswith(p)`. -/
def pyEndsWith (s p : String) : Bool := leadMatch s.toList.reverse p.toList.reverse

/-- Python `s.startswith(p)`. -/
def pyStartsWith (s p : String) : Bool := leadMatch s.toList p.toList

/-- Python `s.split(c)` for a one-character separator (auxiliary loop). -/
def splitCharAux (c : Char) : List Char → List Char → List String
  | [], acc => [String.mk acc.reverse]
  | x :: xs, acc =>
    if x = c then String.mk acc.reverse :: splitCharAux c xs []
    else splitCharAux c xs (x :: acc)

/-- Python `s.split(c)` for a one-character separator: `""` yields `[""]`,
adjacent separators yield empty pieces, exactly as in Python. -/
def splitChar (s : String) (c : Char) : List String := splitCharAux c s.toList []

/-- Join a list of strings with a separator (Python `sep.join(parts)`). -/
def joinWith (sep : String) : List String → String
  | [] => ""
  | [x] => x
  | x :: y :: rest => x ++ sep ++ joinWith sep (y :: rest)

/-- Python `s.rsplit(".", 1)[0]`: everything before the last dot, or the
whole string when there is no dot. -/
def rsplitDotFirst (s : String) : String :=
  let ps := splitChar s '.'
  if ps.length = 1 then s else joinWith "." ps.dropLast

/-- Python `s.split("=", 1)[-1]`: everything after the first `=`, or the
whole string when there is no `=`. -/
def afterFirstEq (s : String) : String :=
  let ps := splitChar s '='
  if ps.length ≤ 1 then s else joinWith "=" ps.tail

/-! ## Enrichment lambda (`src/lambda/enrichment_lambda.py`) -/

/-- Constant `MAX_CHARS` from `enrichment_lambda.py`. -/
def MAX_CHARS : Nat := 1024

/-- The filter `isinstance(p, dict) and "label" in p` from `_pick_best_label`. -/
def isLabeledDict : Json → Bool
  | .obj kvs => (lookupA kvs "label").isSome
  | _ => false

/-- The key function `lambda x: x.get("score", 0.0)` from `_pick_best_label`
(all surviving candidates are dicts; the non-dict arm is unreachable there). -/
def scoreOf : Json → Json
  | .obj kvs => (lookupA kvs "score").getD (.num 0)
  | _ => .num 0

/-- The expression `best.get("label", "unknown")` from `_pick_best_label`.
Note the default applies only when the key is absent: a present `null`
label is returned as `null`. -/
def labelOf : Json → Json
  | .obj kvs => (lookupA kvs "label").getD (.str "unknown")
  | _ => .str "unknown"

/-- Python `<` on the values this program compares (score values inside
`max`). Numbers and booleans compare numerically (`True` is `1`), strings
compare lexicographically by code point; any other pair raises `TypeError`.
Python would additionally order two lists element-wise; in this model a
list/list comparison is approximated as the error case — no theorem below
exercises that branch, and the program's scores are scalars. -/
def pyLt : Json → Json → Except Unit Bool
  | .num a, .num b => .ok (decide (a < b))
  | .num a, .bool b => .ok (decide (a < (if b then (1 : ℚ) else 0)))
  | .bool a, .num b => .ok (decide ((if a then (1 : ℚ) else 0) < b))
  | .bool a, .bool b => .ok (decide ((if a then (1 : ℚ) else 0) < (if b then (1 : ℚ) else 0)))
  | .str a, .str b => .ok (decide (a < b))
  | _, _ => .error ()

/-- Python `max(p :: ps, key=f)`: left fold keeping the current best,
replacing it only when the candidate's key is strictly greater, so the
first maximum wins; a comparison `TypeError` propagates. -/
def pyMaxBy (f : Json → Json) (p : Json) (ps : List Json) : Except Unit Json :=
  ps.foldlM (fun b q => do
    let c ← pyLt (f b) (f q)
    pure (if c then q else b)) p

/-- Python `float(x)` on JSON-shaped values: numbers and booleans convert,
`None`, lists and dicts raise `TypeError`. Python would also parse numeric
strings; string conversion is approximated as the error case — no theorem
below exercises a string score. -/
def pyFloat : Json → Except Unit ℚ
  | .num q => .ok q
  | .bool b => .ok (if b then 1 else 0)
  | _ => .error ()

/-- Translation of `_pick_best_label(result_json)` from
`enrichment_lambda.py` lines 17-25: if the response is a nonempty list,
unwrap one optional level of nesting, keep the dicts that carry a `label`
key, and when any remain return the max-score candidate's label (default
`"unknown"` when the key is absent) and its score coerced by `float`;
otherwise return the sentinel `("unknown", 0.0)`. Errors raised by the
comparison or by `float` propagate to the caller. -/
def pick_best_label (j : Json) : Except Unit (Json × ℚ) :=
  match j with
  | .arr (x :: xs) =>
    let preds0 : List Json := match x with | .arr ys => ys | _ => x :: xs
    match preds0.filter isLabeledDict with
    | [] => .ok (.str "unknown", 0)
    | p :: ps => do
      let best ← pyMaxBy scoreOf p ps
      let score ← pyFloat (scoreOf best)
      .ok (labelOf best, score)
  | _ => .ok (.str "unknown", 0)

/-- The candidate list that `_pick_best_label` extracts from a response:
empty unless the response is a nonempty list, after unwrapping one optional
nesting level and filtering to dicts that carry a `label` key. -/
def predsOf (j : Json) : List Json :=
  match j with
  | .arr (x :: xs) =>
    (match x with | .arr ys => ys | _ => x :: xs).filter isLabeledDict
  | _ => []

/-- Text selection for one post, `enrichment_lambda.py` lines 57-63:
`(tw.get("content") or tw.get("text") or tw.get("rawContent") or
tw.get("full_text") or "").strip()`. A non-dict post raises
(`AttributeError` on `.get`), and so does a truthy non-string winner
(`AttributeError` on `.strip`); both happen outside the per-post `try`. -/
def selectText (tw : Json) : Except Unit String :=
  match tw with
  | .obj kvs =>
    match orChain [lookupA kvs "content", lookupA kvs "text",
                   lookupA kvs "rawContent", lookupA kvs "full_text"] with
    | .str s => .ok (pyStrip s)
    | _ => .error ()
  | _ => .error ()

/-- The two sentinel assignments `tw["sentiment"] = "unknown"` and
`tw["sentiment_score"] = 0.0`. -/
def sentinelize (kvs : List (String × Json)) : List (String × Json) :=
  setA (setA kvs "sentiment" (.str "unknown")) "sentiment_score" (.num 0)

/-- Enrichment of one post, `enrichment_lambda.py` lines 56-85. `classify`
is the composition of `smr.invoke_endpoint` and `json.loads` on its body
(an oracle; its error is any invocation/decoding exception). Empty text
gets the sentinel without invoking the service; otherwise the text is
truncated to `MAX_CHARS` and classified, and any exception inside the
per-post `try` (invocation, response decoding, or `_pick_best_label`)
resolves to the sentinel. Text-selection errors propagate: they occur
before the per-post `try`. -/
def enrichPost (classify : String → Except Unit Json) (tw : Json) : Except Unit Json :=
  match tw with
  | .obj kvs =>
    match selectText tw with
    | .error _ => .error ()
    | .ok text =>
      if text = "" then .ok (.obj (sentinelize kvs))
      else
        match (do
          let r ← classify (pyTake text MAX_CHARS)
          pick_best_label r : Except Unit (Json × ℚ)) with
        | .ok ls => .ok (.obj (setA (setA kvs "sentiment" ls.1) "sentiment_score" (.num ls.2)))
        | .error _ => .ok (.obj (sentinelize kvs))
  | _ => .error ()

/-- Sequential enrichment of the posts of one file (`for i, tw in
enumerate(tweets, ...)`): the first propagating error aborts the file. -/
def enrichList (classify : String → Except Unit Json) : List Json → Except Unit (List Json)
  | [] => .ok []
  | tw :: rest => do
    let e ← enrichPost classify tw
    let es ← enrichList classify rest
    .ok (e :: es)

/-- Enrichment of one loaded file body. A JSON array is enriched element by
element and reserialized. Python's `for tw in tweets` over a non-list body:
a nonempty dict or string iterates over keys/characters, whose `.get`
raises on the first element, so only the empty dict and empty string
complete the loop (and are then written back unchanged); every other body
raises `TypeError`. -/
def processFile (classify : String → Except Unit Json) (body : Json) : Except Unit Json :=
  match body with
  | .arr xs => do
    let ys ← enrichList classify xs
    .ok (.arr ys)
  | .obj kvs => if kvs.isEmpty then .ok (.obj kvs) else .error ()
  | .str s => if s = "" then .ok (.str s) else .error ()
  | _ => .error ()

/-- Does an exception-carrying computation succeed. -/
def isOkE {ε α : Type} : Except ε α → Bool
  | .ok _ => true
  | .error _ => false

/-- Key validation and parsing, `enrichment_lambda.py` lines 38-49, applied
to the URL-decoded object key: reject keys not ending in `/data.json`, then
reject unless splitting on `/` gives exactly 4 parts whose first is
`tweets`; on success return the ticker (second part before its last dot),
the date (third part after its first `=` — note the code never checks for a
`date=` marker) and the destination key `ticker-date.json`. -/
def acceptKey (key : String) : Option (String × String × String) :=
  if pyEndsWith key "/data.json" then
    let parts := splitChar key '/'
    if parts.length = 4 ∧ parts.headD "" = "tweets" then
      let ticker := rsplitDotFirst (parts.getD 1 "")
      let date := afterFirstEq (parts.getD 2 "")
      some (ticker, date, ticker ++ "-" ++ date ++ ".json")
    else none
  else none

/-- Modelled from the spec: the key pattern the specification states for
acceptance — four path segments, first segment the literal `tweets`, last
segment `data.json`, third segment of the form `date=...`. Used only to
compare the specification's acceptance condition with `acceptKey`. -/
def claimKeyMatches (key : String) : Bool :=
  let parts := splitChar key '/'
  decide (parts.length = 4) && decide (parts.headD "" = "tweets") &&
    decide (parts.getD 3 "" = "data.json") && pyStartsWith (parts.getD 2 "") "date="

/-- One storage-change notification record: source bucket name and
(URL-decoded) object key. -/
structure SRec where
  bucket : String
  key : String
deriving DecidableEq

/-- The storage state the enrichment lambda touches: the source side keyed
by (bucket, key) and the destination bucket keyed by key. -/
structure EnrState where
  src : List ((String × String) × Json)
  dst : List (String × Json)

/-- A storage effect issued by the enrichment handler. -/
inductive Eff where
  | get (k : String × String)
  | put (k : String)
  | del (k : String × String)

/-- External collaborators of the enrichment lambda: the inference call
(endpoint invocation plus response decoding) and failure oracles for the
destination write and the source delete. -/
structure EnrEnv where
  classify : String → Except Unit Json
  putFails : String → Bool
  deleteFails : String × String → Bool

/-- Outcome of one notification record. -/
inductive ROut where
  | skipped
  | processed
  | failed (err : String)

/-- Result of processing one record: the storage state afterwards, the
outcome, whether the destination write succeeded, whether the source
delete was issued, and the trace of storage effects attempted. -/
structure StepRes where
  st : EnrState
  out : ROut
  wrote : Bool
  delIssued : Bool
  tr : List Eff

/-- Processing of one notification record, `enrichment_lambda.py` lines
32-101: skip keys that fail validation; otherwise load the source object
(absence raises `NoSuchKey`), enrich it, write the enriched body to the
destination key, then delete the source object; any exception in that
`try` block records a failure for this record. -/
def processRecord (env : EnrEnv) (st : EnrState) (r : SRec) : StepRes :=
  match acceptKey r.key with
  | none => ⟨st, .skipped, false, false, []⟩
  | some (_t, _d, destKey) =>
    match lookupA st.src (r.bucket, r.key) with
    | none => ⟨st, .failed "NoSuchKey", false, false, [.get (r.bucket, r.key)]⟩
    | some body =>
      match processFile env.classify body with
      | .error _ => ⟨st, .failed "EnrichError", false, false, [.get (r.bucket, r.key)]⟩
      | .ok enriched =>
        if env.putFails destKey then
          ⟨st, .failed "PutError", false, false, [.get (r.bucket, r.key), .put destKey]⟩
        else
          let st1 : EnrState := ⟨st.src, setA st.dst destKey enriched⟩
          if env.deleteFails (r.bucket, r.key) then
            ⟨st1, .failed "DeleteError", true, true,
              [.get (r.bucket, r.key), .put destKey, .del (r.bucket, r.key)]⟩
          else
            ⟨⟨removeA st1.src (r.bucket, r.key), st1.dst⟩, .processed, true, true,
              [.get (r.bucket, r.key), .put destKey, .del (r.bucket, r.key)]⟩

/-- Aggregate result of one handler invocation: the `processed` key list,
the `failed` list of (file, error) pairs, the final storage state and the
trace of storage effects. -/
structure HRes where
  processed : List String
  failed : List (String × String)
  st : EnrState
  tr : List Eff

/-- The loop over `event["Records"]`, threading the storage state and
accumulating the `processed` and `failed` lists in record order. -/
def handlerLoop (env : EnrEnv) : EnrState → List SRec → HRes
  | st, [] => ⟨[], [], st, []⟩
  | st, r :: rs =>
    let s := processRecord env st r
    let rest := handlerLoop env s.st rs
    ⟨(match s.out with | .processed => [r.key] | _ => []) ++ rest.processed,
     (match s.out with | .failed e => [(r.key, e)] | _ => []) ++ rest.failed,
     rest.st, s.tr ++ rest.tr⟩

/-- Translation of `lambda_handler(event, context)` from
`enrichment_lambda.py`: iterate `event.get("Records", [])` (an absent
field behaves as the empty batch) and return the aggregate
`processed`/`failed` lists. -/
def lambda_handler (env : EnrEnv) (st : EnrState) (event : Option (List SRec)) : HRes :=
  handlerLoop env st (event.getD [])

/-! ## Scraping lambda (`src/lambda/scraping_lambda.py`) -/

/-- Constant `MIN_LIKES` from `scraping_lambda.py`. -/
def MIN_LIKES : Nat := 5

/-- A tweet as returned by the social search client: the fields
`run_scraper` reads (the creation date is kept as its string rendering,
matching `str(cleanTweet.date)`). -/
structure Tweet where
  id : Nat
  username : String
  displayname : String
  rawContent : String
  date : String
  likeCount : Nat
  retweetCount : Nat
  replyCount : Nat
  hashtags : List String
  url : String
deriving DecidableEq

/-- The `tweet_dict` record persisted for one post, `scraping_lambda.py`
lines 166-178. Equality of two posts is structural equality over all
eleven stored fields, which models Python `==` on these dicts. -/
structure Post where
  id : Nat
  ticker : String
  username : String
  display_name : String
  content : String
  created_at : String
  likes : Nat
  retweets : Nat
  replies : Nat
  hashtags : List String
  url : String
deriving DecidableEq

/-- The combined effect of `re.sub(r'[\r\n]+', ' ', s)` then
`re.sub(r'\s+', ' ', s)` then `.strip()`: whitespace runs collapse to one
space and the ends are trimmed, leaving the words joined by single
spaces. -/
def collapseWs (s : String) : String :=
  joinWith " " ((s.split Char.isWhitespace).filter (fun w => w ≠ ""))

/-- Translation of `process_tweet_content(tweet)`: pictographic symbols are
stripped from the display name and content by the external `emoji`
library, modelled by the oracle `removeEmoji`, and the content's
whitespace is collapsed and trimmed. -/
def process_tweet_content (removeEmoji : String → String) (t : Tweet) : Tweet :=
  { t with displayname := removeEmoji t.displayname,
           rawContent := collapseWs (removeEmoji t.rawContent) }

/-- Building `tweet_dict` from a cleaned tweet, `scraping_lambda.py` lines
165-178 (an empty `hashtags` list is stored as `[]`, which is what the
falsy-check in the source also produces). -/
def mkPost (removeEmoji : String → String) (tag : String) (t : Tweet) : Post :=
  let c := process_tweet_content removeEmoji t
  { id := c.id, ticker := tag, username := c.username,
    display_name := c.displayname, content := c.rawContent,
    created_at := c.date, likes := c.likeCount, retweets := c.retweetCount,
    replies := c.replyCount, hashtags := c.hashtags, url := c.url }

/-- Python `tag.strip('$')`: drop `$` characters from both ends. -/
def stripDollar (s : String) : String :=
  String.mk (((s.toList.dropWhile (fun c => c = '$')).reverse.dropWhile
    (fun c => c = '$')).reverse)

/-- Python `s.replace('#', '')`: remove every `#`. -/
def dropHash (s : String) : String := String.mk (s.toList.filter (fun c => c ≠ '#'))

/-- Python `s.replace(' ', '_')`. -/
def spacesToUnderscores (s : String) : String :=
  String.mk (s.toList.map (fun c => if c = ' ' then '_' else c))

/-- The per-ticker file name, `scraping_lambda.py` line 147:
`f"{tag.strip('$').replace('#','').replace(' ','_')}.json"`. -/
def fileNameOf (tag : String) : String :=
  spacesToUnderscores (dropHash (stripDollar tag)) ++ ".json"

/-- The day-partitioned key written by `save_results_to_s3`, line 86. -/
def partitionKey (fileName today : String) : String :=
  "tweets/" ++ fileName ++ "/date=" ++ today ++ "/data.json"

/-- The source-bucket state the scraper touches: stored result sets by
key. -/
def S3s : Type := List (String × List Post)

/-- Distinguishing `NoSuchKey` from every other read failure, as boto3
does. -/
inductive GErr where
  | noSuchKey
  | other

/-- External collaborators of the scraper: the social search (indexed by
the query string it is given; an error is a raised search exception) and a
transport-failure oracle for storage reads. The `removeEmoji` oracle
stands for the external `emoji` library. -/
structure ScrEnv where
  search : String → Except Unit (List Tweet)
  removeEmoji : String → String
  getFails : String → Bool

/-- An S3 `get_object` against the source bucket: a transport failure is a
generic error, an absent key raises `NoSuchKey`. -/
def getObjectS (env : ScrEnv) (st : S3s) (key : String) : Except GErr (List Post) :=
  if env.getFails key then .error .other
  else
    match lookupA st key with
    | none => .error .noSuchKey
    | some v => .ok v

/-- Translation of `load_existing_results(file_name)`, `scraping_lambda.py`
lines 67-75: read `tweets/{file_name}`, returning `[]` when the read
raises `NoSuchKey` and propagating every other failure. -/
def load_existing_results (env : ScrEnv) (st : S3s) (fileName : String) :
    Except Unit (List Post) :=
  match getObjectS env st ("tweets/" ++ fileName) with
  | .ok v => .ok v
  | .error .noSuchKey => .ok []
  | .error .other => .error ()

/-- Translation of `save_results_to_s3(file_name, data)`, lines 81-94:
overwrite the day-partitioned key with the serialized result set. -/
def save_results_to_s3 (st : S3s) (fileName today : String) (data : List Post) : S3s :=
  setA st (partitionKey fileName today) data

/-- Stable descending insertion by like count: insert before the first
strictly smaller element, after equals. -/
def insertDesc (t : Tweet) : List Tweet → List Tweet
  | [] => [t]
  | u :: us => if u.likeCount < t.likeCount then t :: u :: us else u :: insertDesc t us

/-- Python `sorted(ts, key=lambda x: x.likeCount, reverse=True)`: a stable
descending sort by like count. -/
def sortByLikesDesc (ts : List Tweet) : List Tweet :=
  ts.foldl (fun acc t => insertDesc t acc) []

/-- The append loop of `run_scraper`, lines 164-180: each new post is
appended only when no structurally equal post is already in the
accumulated list (`if tweet_dict not in results`). -/
def mergeResults (results : List Post) (batch : List Post) : List Post :=
  batch.foldl (fun acc p => if p ∈ acc then acc else acc ++ [p]) results

/-- The body of one iteration of the ticker loop of `run_scraper`, lines
146-184: load the existing results for the ticker's file, search the last
24 hours (query built from the tag and the window start), keep tweets with
at least `MIN_LIKES` likes sorted by likes descending, clean them, merge
them into the loaded results without duplicates, and overwrite the
day-partitioned key. Any exception (storage read failure or search
failure) propagates — the loop body has no exception handler. -/
def processTicker (env : ScrEnv) (today startStr : String) (st : S3s) (tag : String) :
    Except Unit S3s := do
  let fileName := fileNameOf tag
  let results ← load_existing_results env st fileName
  let tweets ← env.search (tag ++ " lang:en since:" ++ startStr)
  let top := sortByLikesDesc (tweets.filter (fun t => MIN_LIKES ≤ t.likeCount))
  let merged := mergeResults results (top.map (mkPost env.removeEmoji tag))
  .ok (save_results_to_s3 st fileName today merged)

/-- The ticker loop of `run_scraper` as a state machine over the store: an
exception raised while processing one ticker propagates out of
`run_scraper` (there is no per-ticker handler), so the loop stops and the
writes performed so far survive. The boolean records whether the loop ran
to completion. -/
def runScraperLoop (env : ScrEnv) (today startStr : String) :
    List String → S3s → S3s × Bool
  | [], st => (st, true)
  | tag :: rest, st =>
    match processTicker env today startStr st tag with
    | .ok st' => runScraperLoop env today startStr rest st'
    | .error _ => (st, false)

/-- One HTML table cell matched by the selector in
`retrieve_top_hashtags`: its optional first `strong` child's text, and its
own text. -/
structure Cell where
  strong : Option String
  text : String
deriving DecidableEq

/-- Translation of `retrieve_top_hashtags()`, `scraping_lambda.py` lines
33-53, applied to the table cells extracted from the fetched page: per
cell, `'$' + cell.strong.text.strip() if cell.strong else
cell.text.strip()` — the `$` prefix is attached only in the branch where
the cell has a `strong` child — then the list is capped to 30. -/
def retrieve_top_hashtags (cells : List Cell) : List String :=
  (cells.map (fun cell =>
    match cell.strong with
    | some s => "$" ++ pyStrip s
    | none => pyStrip cell.text)).take 30

/-- First maximum of a candidate list under a numeric score projection:
the reference selection function used to state what `pick_best_label`
computes on well-formed candidates. -/
def firstMaxBy (f : Json → ℚ) (p : Json) (ps : List Json) : Json :=
  ps.foldl (fun b q => if f b < f q then q else b) p

/-- Numeric value of a candidate's score field (candidates whose score is
not a JSON number are outside this projection's intended domain). -/
def numScoreOf (j : Json) : ℚ :=
  match scoreOf j with
  | .num r => r
  | _ => 0

/-- Does every candidate in the list carry a numeric score value
(counting an absent score as the numeric default 0). -/
def allScoresNum (l : List Json) : Bool :=
  l.all (fun q => match scoreOf q with | .num _ => true | _ => false)

/-! ## Helper lemmas -/

theorem lookupA_setA_self {κ α : Type} [DecidableEq κ] (l : List (κ × α)) (k : κ) (x : α) :
    lookupA (setA l k x) k = some x := by
  induction l with
  | nil => simp [setA, lookupA]
  | cons h t ih =>
    obtain ⟨k', y⟩ := h
    by_cases hk : k' = k
    · simp [setA, hk, lookupA]
    · simp [setA, hk, lookupA, ih]

theorem lookupA_removeA_self {κ α : Type} [DecidableEq κ] (l : List (κ × α)) (k : κ) :
    lookupA (removeA l k) k = none := by
  induction l with
  | nil => simp [removeA, lookupA]
  | cons h t ih =>
    obtain ⟨k', y⟩ := h
    by_cases hk : k' = k
    · simp [removeA, hk, ih]
    · simp [removeA, hk, lookupA, ih]

theorem lookupA_removeA_none {κ α : Type} [DecidableEq κ] (l : List (κ × α)) (k x : κ)
    (h : lookupA l x = none) : lookupA (removeA l k) x = none := by
  induction l with
  | nil => simp [removeA, lookupA]
  | cons hd t ih =>
    obtain ⟨k', y⟩ := hd
    by_cases hk : k' = x
    · simp [lookupA, hk] at h
    · simp [lookupA, hk] at h
      by_cases hk2 : k' = k
      · simp [removeA, hk2, ih h]
      · simp [removeA, hk2, lookupA, hk, ih h]

/-! ## Claim theorems -/

/-- C10: for every trigger event with no `Records` field or an empty record
list, the enrichment handler returns empty `processed` and `failed` lists,
issues no storage effect, and leaves the storage state unchanged. -/
theorem C10_empty_event_noop :
    ∀ (env : EnrEnv) (st : EnrState),
      lambda_handler env st none = ⟨[], [], st, []⟩ ∧
      lambda_handler env st (some []) = ⟨[], [], st, []⟩ :=
  fun _ _ => ⟨rfl, rfl⟩

/-- C8: when the storage read of a ticker's previously stored results
raises `NoSuchKey`, `load_existing_results` returns the empty result set
instead of propagating; any other read failure propagates; a successful
read returns the stored value. -/
theorem C8_not_found_returns_empty :
    ∀ (env : ScrEnv) (st : S3s) (fn : String),
      (env.getFails ("tweets/" ++ fn) = false → lookupA st ("tweets/" ++ fn) = none →
        load_existing_results env st fn = .ok []) ∧
      (env.getFails ("tweets/" ++ fn) = true → load_existing_results env st fn = .error ()) ∧
      (∀ v, env.getFails ("tweets/" ++ fn) = false → lookupA st ("tweets/" ++ fn) = some v →
        load_existing_results env st fn = .ok v) := by
  intro env st fn
  refine ⟨?_, ?_, ?_⟩
  · intro h1 h2
    simp [load_existing_results, getObjectS, h1, h2]
  · intro h1
    simp [load_existing_results, getObjectS, h1]
  · intro v h1 h2
    simp [load_existing_results, getObjectS, h1, h2]

/-- Witness for C8 at a concrete input: an empty store with no transport
failure yields the empty result set. -/
theorem C8_not_found_returns_empty_witness :
    load_existing_results ⟨fun _ => .ok [], id, fun _ => false⟩ [] "A.json" = .ok [] :=
  (C8_not_found_returns_empty ⟨fun _ => .ok [], id, fun _ => false⟩ [] "A.json").1 rfl rfl

/-- C2 counterexample: the key `tweets/AAPL.json/2024-01-01/data.json`,
whose third segment is not of the form `date=...`, is nevertheless
accepted by the handler (with `date` set to the whole segment), so the
handler does not accept a key exactly when it matches the claimed
pattern. -/
theorem C2_counterexample :
    acceptKey "tweets/AAPL.json/2024-01-01/data.json" =
      some ("AAPL", "2024-01-01", "AAPL-2024-01-01.json") ∧
    claimKeyMatches "tweets/AAPL.json/2024-01-01/data.json" = false :=
  ⟨rfl, rfl⟩

/-- C2 (amended): the handler accepts a URL-decoded key exactly when it
ends in `/data.json` and splits on `/` into four segments whose first is
the literal `tweets` — the third segment is not constrained to the form
`date=...`; every other key is silently skipped. For accepted keys the
ticker is the second segment with its trailing extension stripped and the
date is the third segment's text after its first `=` (the whole segment
when it has no `=`); the spec's three examples behave as stated. -/
theorem C2_key_validation :
    (∀ key : String,
      (acceptKey key).isSome = true ↔
        (pyEndsWith key "/data.json" = true ∧ (splitChar key '/').length = 4 ∧
          (splitChar key '/').headD "" = "tweets")) ∧
    (∀ key t d dk, acceptKey key = some (t, d, dk) →
      t = rsplitDotFirst ((splitChar key '/').getD 1 "") ∧
      d = afterFirstEq ((splitChar key '/').getD 2 "") ∧
      dk = t ++ "-" ++ d ++ ".json") ∧
    acceptKey "tweets/AAPL.json/date=2024-01-01/data.json" =
      some ("AAPL", "2024-01-01", "AAPL-2024-01-01.json") ∧
    acceptKey "other/AAPL.json/data.json" = none ∧
    acceptKey "tweets/AAPL.json/date=2024-01-01/notdata.json" = none := by
  refine ⟨?_, ?_, rfl, rfl, rfl⟩
  · intro key
    by_cases h1 : pyEndsWith key "/data.json" = true
    · by_cases h2 : (splitChar key '/').length = 4 ∧ (splitChar key '/').headD "" = "tweets"
      · simp [acceptKey, h1, h2.1, h2.2]
      · simp only [acceptKey, h1, if_true]
        rw [if_neg h2]
        simp only [Option.isSome_none, Bool.false_eq_true, false_iff, not_and]
        intro _ h4 h5
        exact h2 ⟨h4, h5⟩
    · simp [acceptKey, h1]
  · intro key t d dk h
    by_cases h1 : pyEndsWith key "/data.json" = true
    · by_cases h2 : (splitChar key '/').length = 4 ∧ (splitChar key '/').headD "" = "tweets"
      · simp only [acceptKey, h1, if_true] at h
        rw [if_pos h2] at h
        simp only [Option.some.injEq, Prod.mk.injEq] at h
        obtain ⟨ht, hd, hk⟩ := h
        subst ht; subst hd; subst hk
        exact ⟨rfl, rfl, rfl⟩
      · simp only [acceptKey, h1, if_true] at h
        rw [if_neg h2] at h
        exact Option.noConfusion h
    · simp [acceptKey, h1] at h

/-- Witness for C2's amended theorem at the spec's accepted example key. -/
theorem C2_key_validation_witness :
    "AAPL" = rsplitDotFirst ((splitChar "tweets/AAPL.json/date=2024-01-01/data.json" '/').getD 1 "") ∧
    "2024-01-01" = afterFirstEq ((splitChar "tweets/AAPL.json/date=2024-01-01/data.json" '/').getD 2 "") ∧
    "AAPL-2024-01-01.json" = "AAPL" ++ "-" ++ "2024-01-01" ++ ".json" :=
  C2_key_validation.2.1 "tweets/AAPL.json/date=2024-01-01/data.json"
    "AAPL" "2024-01-01" "AAPL-2024-01-01.json" rfl

/-- C9 counterexample: a table cell with no `strong` child yields its
trimmed text with no `$` prefix, so not every returned symbol is prefixed
with `$`. -/
theorem C9_counterexample :
    retrieve_top_hashtags [⟨none, " TSLA "⟩] = ["TSLA"] ∧
    pyStartsWith "TSLA" "$" = false :=
  ⟨rfl, rfl⟩

/-- C9 (amended): the ticker discovery adapter returns at most 30 symbols;
a symbol coming from a cell with a `strong` child is `$` prepended to the
trimmed strong text (hence `$`-prefixed), while a cell without a `strong`
child contributes its own trimmed text with no `$` prefix. -/
theorem C9_hashtags :
    (∀ cells : List Cell,
      (retrieve_top_hashtags cells).length ≤ 30 ∧
      ∀ x ∈ retrieve_top_hashtags cells,
        (∃ c ∈ cells, (∃ s, c.strong = some s ∧ x = "$" ++ pyStrip s) ∨
          (c.strong = none ∧ x = pyStrip c.text))) ∧
    (∀ s : String, pyStartsWith ("$" ++ s) "$" = true) := by
  constructor
  · intro cells
    constructor
    · simp only [retrieve_top_hashtags]
      exact List.length_take_le 30 _
    · intro x hx
      unfold retrieve_top_hashtags at hx
      have hx' := List.take_subset 30 _ hx
      obtain ⟨c, hc, hfc⟩ := List.mem_map.mp hx'
      refine ⟨c, hc, ?_⟩
      cases hs : c.strong with
      | some s =>
        left
        exact ⟨s, rfl, by rw [hs] at hfc; simp at hfc; exact hfc.symm⟩
      | none =>
        right
        exact ⟨rfl, by rw [hs] at hfc; exact hfc.symm⟩
  · intro s
    show leadMatch ("$" ++ s).toList "$".toList = true
    have : ("$" ++ s).toList = '$' :: s.toList := rfl
    rw [this]
    simp [leadMatch]

/-- Witness for C9's amended theorem: a single cell with a `strong` child
produces a `$`-prefixed symbol, and the prefix fact holds at `"X"`. -/
theorem C9_hashtags_witness :
    (retrieve_top_hashtags [⟨some "AAPL", ""⟩]).length ≤ 30 ∧
    (∃ c ∈ [(⟨some "AAPL", ""⟩ : Cell)],
      (∃ s, c.strong = some s ∧ "$AAPL" = "$" ++ pyStrip s) ∨
      (c.strong = none ∧ "$AAPL" = pyStrip c.text)) ∧
    pyStartsWith ("$" ++ "X") "$" = true := by
  refine ⟨(C9_hashtags.1 [⟨some "AAPL", ""⟩]).1, ?_, C9_hashtags.2 "X"⟩
  exact (C9_hashtags.1 [⟨some "AAPL", ""⟩]).2 "$AAPL" (by simp [retrieve_top_hashtags, pyStrip])

/-- C5: merging previously stored posts with newly collected posts, where
identity is structural equality over all stored fields, preserves freedom
from duplicates, and merging a batch consisting only of posts already in
the stored set leaves the set unchanged (in particular its size). -/
theorem C5_merge_dedup :
    ∀ (results batch : List Post), results.Nodup →
      (mergeResults results batch).Nodup ∧
      ((∀ p ∈ batch, p ∈ results) → mergeResults results batch = results) := by
  intro results batch
  induction batch generalizing results with
  | nil => intro h; exact ⟨h, fun _ => rfl⟩
  | cons p ps ih =>
    intro h
    have hstep : mergeResults results (p :: ps) =
        mergeResults (if p ∈ results then results else results ++ [p]) ps := rfl
    by_cases hp : p ∈ results
    · rw [hstep, if_pos hp]
      refine ⟨(ih results h).1, fun hall => (ih results h).2 ?_⟩
      intro q hq
      exact hall q (List.mem_cons_of_mem p hq)
    · rw [hstep, if_neg hp]
      have hnd : (results ++ [p]).Nodup := by
        simp [List.nodup_append, h, hp]
      refine ⟨(ih (results ++ [p]) hnd).1, fun hall => ?_⟩
      exact absurd (hall p (List.mem_cons_self p ps)) hp

/-- Witness for C5 at a concrete input: merging a batch that duplicates
the single stored post leaves the result set unchanged. -/
theorem C5_merge_dedup_witness :
    (mergeResults [⟨1, "$A", "u", "d", "hello", "t", 5, 1, 0, [], "url"⟩]
      [⟨1, "$A", "u", "d", "hello", "t", 5, 1, 0, [], "url"⟩,
       ⟨1, "$A", "u", "d", "hello", "t", 5, 1, 0, [], "url"⟩]).Nodup ∧
    mergeResults [⟨1, "$A", "u", "d", "hello", "t", 5, 1, 0, [], "url"⟩]
      [⟨1, "$A", "u", "d", "hello", "t", 5, 1, 0, [], "url"⟩,
       ⟨1, "$A", "u", "d", "hello", "t", 5, 1, 0, [], "url"⟩] =
      [⟨1, "$A", "u", "d", "hello", "t", 5, 1, 0, [], "url"⟩] := by
  have h := C5_merge_dedup [⟨1, "$A", "u", "d", "hello", "t", 5, 1, 0, [], "url"⟩]
    [⟨1, "$A", "u", "d", "hello", "t", 5, 1, 0, [], "url"⟩,
     ⟨1, "$A", "u", "d", "hello", "t", 5, 1, 0, [], "url"⟩] (by decide)
  exact ⟨h.1, h.2 (by decide)⟩

/-- C1 counterexample: with three discovered tickers where processing the
second raises during the social search, the cycle aborts — the first
ticker's partition is written but the third ticker's partition is not, so
a per-ticker exception is not confined to the failing ticker. -/
theorem C1_counterexample :
    runScraperLoop
        ⟨fun q => if q = "$B lang:en since:T0" then .error () else .ok [], id, fun _ => false⟩
        "D" "T0" ["$A", "$B", "$C"] [] =
      ([(partitionKey "A.json" "D", [])], false) ∧
    lookupA [(partitionKey "A.json" "D", ([] : List Post))] (partitionKey "C.json" "D") = none ∧
    lookupA [(partitionKey "A.json" "D", ([] : List Post))] (partitionKey "B.json" "D") = none := by
  refine ⟨rfl, ?_, ?_⟩ <;> simp [partitionKey, lookupA]

/-- C1 (amended): an exception raised while processing one ticker is not
caught — it propagates and aborts the loop. The tickers processed before
the failing one keep their completed partition writes (a successful
per-ticker step always writes the ticker's partition key), and the failing
ticker and every later ticker have nothing written, in particular no
partial result set is persisted for the failing ticker. -/
theorem C1_failure_aborts_cycle :
    (∀ (env : ScrEnv) (today startStr : String) (st st1 : S3s) (pre post : List String)
      (t : String),
      runScraperLoop env today startStr pre st = (st1, true) →
      processTicker env today startStr st1 t = .error () →
      runScraperLoop env today startStr (pre ++ t :: post) st = (st1, false)) ∧
    (∀ (env : ScrEnv) (today startStr : String) (st : S3s) (tag : String) (st' : S3s),
      processTicker env today startStr st tag = .ok st' →
      (lookupA st' (partitionKey (fileNameOf tag) today)).isSome = true) := by
  constructor
  · intro env today startStr st st1 pre post t hpre hfail
    induction pre generalizing st with
    | nil =>
      simp only [runScraperLoop, Prod.mk.injEq] at hpre
      have h1 : st = st1 := hpre.1
      subst h1
      rw [List.nil_append]
      simp [runScraperLoop, hfail]
    | cons p ps ih =>
      rw [List.cons_append]
      simp only [runScraperLoop] at hpre ⊢
      cases hp : processTicker env today startStr st p with
      | ok st2 =>
        rw [hp] at hpre
        exact ih st2 hpre
      | error e =>
        rw [hp] at hpre
        simp at hpre
  · intro env today startStr st tag st' h
    simp only [processTicker, bind, Except.bind] at h
    cases hl : load_existing_results env st (fileNameOf tag) with
    | error e => rw [hl] at h; simp at h
    | ok results =>
      rw [hl] at h
      cases hs : env.search (tag ++ " lang:en since:" ++ startStr) with
      | error e =>
        rw [hs] at h
        simp at h
      | ok tweets =>
        rw [hs] at h
        simp only [Except.ok.injEq] at h
        rw [← h]
        simp [save_results_to_s3, lookupA_setA_self]

/-- Witness for C1's amended theorem at a concrete input: the first
ticker's step succeeds and writes its partition, the second ticker's
search raises, and the loop result is exactly the state after the first
ticker with the failure flag. -/
theorem C1_failure_aborts_cycle_witness :
    runScraperLoop
        ⟨fun q => if q = "$B lang:en since:T0" then .error () else .ok [], id, fun _ => false⟩
        "D" "T0" (["$A"] ++ "$B" :: ["$C"]) [] =
      ([(partitionKey "A.json" "D", [])], false) ∧
    (lookupA [(partitionKey "A.json" "D", ([] : List Post))]
      (partitionKey (fileNameOf "$A") "D")).isSome = true := by
  constructor
  · exact C1_failure_aborts_cycle.1
      ⟨fun q => if q = "$B lang:en since:T0" then .error () else .ok [], id, fun _ => false⟩
      "D" "T0" [] [(partitionKey "A.json" "D", [])] ["$A"] ["$C"] "$B" rfl rfl
  · exact C1_failure_aborts_cycle.2
      ⟨fun q => if q = "$B lang:en since:T0" then .error () else .ok [], id, fun _ => false⟩
      "D" "T0" [] "$A" [(partitionKey "A.json" "D", [])] rfl

/-- C4: evaluation of the enrichment pipeline at the failing input — a raw
file with one post whose text is nonempty, while the classifier responds
with a candidate whose `label` key is present but null. The written
enriched file carries `sentiment` null, because `best.get("label",
"unknown")` applies its default only when the key is absent; this
contradicts the claimed non-null invariant and the sentinel default the
code itself intends. -/
theorem C4_null_label_written :
    (lambda_handler
      ⟨fun _ => .ok (.arr [.obj [("label", Json.null), ("score", .num (mkRat 1 2))]]),
       fun _ => false, fun _ => false⟩
      ⟨[(("b", "tweets/A.json/date=2024-01-01/data.json"),
          .arr [.obj [("content", .str "hello")]])], []⟩
      (some [⟨"b", "tweets/A.json/date=2024-01-01/data.json"⟩])).st.dst =
      [("A-2024-01-01.json",
        .arr [.obj [("content", .str "hello"), ("sentiment", Json.null),
          ("sentiment_score", .num (mkRat 1 2))]])] ∧
    Json.null ≠ Json.str "unknown" :=
  ⟨rfl, fun h => Json.noConfusion h⟩

/-! ## Lemmas about the classifier selection -/

theorem firstMaxBy_mem (f : Json → ℚ) (p : Json) (ps : List Json) :
    firstMaxBy f p ps ∈ p :: ps := by
  induction ps generalizing p with
  | nil => simp [firstMaxBy]
  | cons q qs ih =>
    have hstep : firstMaxBy f p (q :: qs) = firstMaxBy f (if f p < f q then q else p) qs := rfl
    rw [hstep]
    rcases List.mem_cons.mp (ih (if f p < f q then q else p)) with h | h
    · rw [h]
      by_cases hpq : f p < f q
      · simp [hpq]
      · simp [hpq]
    · exact List.mem_cons_of_mem _ (List.mem_cons_of_mem _ h)

theorem firstMaxBy_ge (f : Json → ℚ) (p : Json) (ps : List Json) :
    ∀ q ∈ p :: ps, f q ≤ f (firstMaxBy f p ps) := by
  induction ps generalizing p with
  | nil =>
    intro q hq
    simp at hq
    subst hq
    simp [firstMaxBy]
  | cons r rs ih =>
    intro q hq
    have hstep : firstMaxBy f p (r :: rs) = firstMaxBy f (if f p < f r then r else p) rs := rfl
    rw [hstep]
    have hself : f (if f p < f r then r else p) ≤
        f (firstMaxBy f (if f p < f r then r else p) rs) :=
      ih (if f p < f r then r else p) _ (List.mem_cons_self _ _)
    have hp_le : f p ≤ f (firstMaxBy f (if f p < f r then r else p) rs) := by
      refine le_trans ?_ hself
      by_cases hc : f p < f r
      · simp only [if_pos hc]; exact le_of_lt hc
      · simp only [if_neg hc]; exact le_refl _
    have hr_le : f r ≤ f (firstMaxBy f (if f p < f r then r else p) rs) := by
      refine le_trans ?_ hself
      by_cases hc : f p < f r
      · simp only [if_pos hc]; exact le_refl _
      · simp only [if_neg hc]; exact le_of_not_lt hc
    rcases List.mem_cons.mp hq with h | h
    · exact h ▸ hp_le
    · rcases List.mem_cons.mp h with h2 | h2
      · exact h2 ▸ hr_le
      · exact ih (if f p < f r then r else p) q (List.mem_cons_of_mem _ h2)

theorem scoresNum_mem (l : List Json) (x : Json) (h : allScoresNum l = true) (hx : x ∈ l) :
    ∃ a, scoreOf x = .num a := by
  have hx' := List.all_eq_true.mp h x hx
  cases hs : scoreOf x <;> rw [hs] at hx' <;> simp at hx'
  exact ⟨_, rfl⟩

theorem pyMaxBy_num (p : Json) (ps : List Json) (h : allScoresNum (p :: ps) = true) :
    pyMaxBy scoreOf p ps = .ok (firstMaxBy numScoreOf p ps) := by
  induction ps generalizing p with
  | nil => rfl
  | cons q qs ih =>
    obtain ⟨a, ha⟩ := scoresNum_mem _ p h (List.mem_cons_self _ _)
    obtain ⟨b, hb⟩ := scoresNum_mem _ q h (List.mem_cons_of_mem _ (List.mem_cons_self _ _))
    have hA : numScoreOf p = a := by simp [numScoreOf, ha]
    have hB : numScoreOf q = b := by simp [numScoreOf, hb]
    have hstep : pyMaxBy scoreOf p (q :: qs) =
        pyMaxBy scoreOf (if numScoreOf p < numScoreOf q then q else p) qs := by
      simp only [pyMaxBy, List.foldlM_cons, pyLt, ha, hb, bind, Except.bind, pure,
        Except.pure]
      rw [hA, hB]
      by_cases hab : a < b
      · simp [hab]
      · simp [hab]
    have hfst : firstMaxBy numScoreOf p (q :: qs) =
        firstMaxBy numScoreOf (if numScoreOf p < numScoreOf q then q else p) qs := rfl
    rw [hstep, hfst]
    apply ih
    simp only [allScoresNum, List.all_cons, Bool.and_eq_true] at h ⊢
    by_cases hc : numScoreOf p < numScoreOf q
    · simp only [if_pos hc]
      exact ⟨h.2.1, h.2.2⟩
    · simp only [if_neg hc]
      exact ⟨h.1, h.2.2⟩

/-- C6 counterexample: a malformed candidate set — a single candidate whose
`score` value is null — makes `_pick_best_label` raise (`float(None)` is a
`TypeError`) instead of returning the sentinel, so the function does not
return the sentinel on every malformed candidate set. -/
theorem C6_counterexample :
    pick_best_label (.arr [.obj [("label", .str "a"), ("score", Json.null)]]) = .error () ∧
    ∀ (l : Json) (q : ℚ), (Except.error () : Except Unit (Json × ℚ)) ≠ .ok (l, q) :=
  ⟨rfl, fun _ _ h => Except.noConfusion h⟩

/-- C6 (amended): when the response yields no candidate dict carrying a
`label` key (non-list, empty list, or no such dict after unwrapping one
nesting level), `_pick_best_label` returns the sentinel `("unknown", 0.0)`;
when candidates remain and their scores are numeric, it returns the label
and score of the first candidate attaining the maximum score — in
particular its score bounds every candidate's score. Malformed score
values inside a surviving candidate instead raise, and a present null
label is returned as-is (see the counterexamples for C6 and C4). -/
theorem C6_pick_best_label :
    ∀ j : Json,
      (predsOf j = [] → pick_best_label j = .ok (.str "unknown", 0)) ∧
      (∀ p ps, predsOf j = p :: ps → allScoresNum (p :: ps) = true →
        pick_best_label j = .ok (labelOf (firstMaxBy numScoreOf p ps),
          numScoreOf (firstMaxBy numScoreOf p ps)) ∧
        ∀ q ∈ p :: ps, numScoreOf q ≤ numScoreOf (firstMaxBy numScoreOf p ps)) := by
  intro j
  constructor
  · intro h
    cases j with
    | arr elems =>
      cases elems with
      | nil => rfl
      | cons x xs =>
        have h' : ((match x with | Json.arr ys => ys | _ => x :: xs).filter isLabeledDict)
            = [] := h
        simp only [pick_best_label]
        rw [h']
    | null => rfl
    | bool b => rfl
    | num q => rfl
    | str s => rfl
    | obj kvs => rfl
  · intro p ps h hall
    cases j with
    | arr elems =>
      cases elems with
      | nil => exact absurd h (by simp [predsOf])
      | cons x xs =>
        have h' : ((match x with | Json.arr ys => ys | _ => x :: xs).filter isLabeledDict)
            = p :: ps := h
        obtain ⟨a, ha⟩ := scoresNum_mem _ (firstMaxBy numScoreOf p ps) hall
          (firstMaxBy_mem numScoreOf p ps)
        constructor
        · simp only [pick_best_label]
          rw [h']
          show (do
            let best ← pyMaxBy scoreOf p ps
            let score ← pyFloat (scoreOf best)
            Except.ok (labelOf best, score)) =
            Except.ok (labelOf (firstMaxBy numScoreOf p ps),
              numScoreOf (firstMaxBy numScoreOf p ps))
          rw [pyMaxBy_num p ps hall]
          simp only [bind, Except.bind, ha, pyFloat]
          have hnum : numScoreOf (firstMaxBy numScoreOf p ps) = a := by
            simp [numScoreOf, ha]
          rw [hnum]
        · intro q hq
          exact firstMaxBy_ge numScoreOf p ps q hq
    | null => exact absurd h (by simp [predsOf])
    | bool b => exact absurd h (by simp [predsOf])
    | num q => exact absurd h (by simp [predsOf])
    | str s => exact absurd h (by simp [predsOf])
    | obj kvs => exact absurd h (by simp [predsOf])

/-- Witness for C6's amended theorem at the spec's example: candidates with
scores 0.3 and 0.9 select label `neg` with score 0.9. -/
theorem C6_pick_best_label_witness :
    pick_best_label (.arr [.obj [("label", .str "pos"), ("score", .num (mkRat 3 10))],
      .obj [("label", .str "neg"), ("score", .num (mkRat 9 10))]]) =
      .ok (.str "neg", mkRat 9 10) := by
  have h := (C6_pick_best_label (.arr [.obj [("label", .str "pos"), ("score", .num (mkRat 3 10))],
      .obj [("label", .str "neg"), ("score", .num (mkRat 9 10))]])).2
    (.obj [("label", .str "pos"), ("score", .num (mkRat 3 10))])
    [.obj [("label", .str "neg"), ("score", .num (mkRat 9 10))]] rfl rfl
  exact h.1

/-! ## Lemmas about per-post enrichment -/

theorem selectText_ok_enrichPost (classify : String → Except Unit Json) (tw : Json)
    (h : isOkE (selectText tw) = true) : ∃ e, enrichPost classify tw = .ok e := by
  cases tw with
  | obj kvs =>
    cases hst : selectText (.obj kvs) with
    | error e => rw [hst] at h; simp [isOkE] at h
    | ok text =>
      by_cases ht : text = ""
      · exact ⟨.obj (sentinelize kvs), by simp [enrichPost, hst, ht]⟩
      · cases hc : (do
          let r ← classify (pyTake text MAX_CHARS)
          pick_best_label r : Except Unit (Json × ℚ)) with
        | ok ls =>
          exact ⟨.obj (setA (setA kvs "sentiment" ls.1) "sentiment_score" (.num ls.2)),
            by simp [enrichPost, hst, ht, hc]⟩
        | error e =>
          exact ⟨.obj (sentinelize kvs), by simp [enrichPost, hst, ht, hc]⟩
  | null => simp [selectText, isOkE] at h
  | bool b => simp [selectText, isOkE] at h
  | num q => simp [selectText, isOkE] at h
  | str s => simp [selectText, isOkE] at h
  | arr xs => simp [selectText, isOkE] at h

theorem enrichList_ok (classify : String → Except Unit Json) (xs : List Json)
    (h : xs.all (fun tw => isOkE (selectText tw)) = true) :
    ∃ ys, enrichList classify xs = .ok ys ∧ ys.length = xs.length := by
  induction xs with
  | nil => exact ⟨[], rfl, rfl⟩
  | cons tw rest ih =>
    simp only [List.all_cons, Bool.and_eq_true] at h
    obtain ⟨e, he⟩ := selectText_ok_enrichPost classify tw h.1
    obtain ⟨ys, hys, hlen⟩ := ih h.2
    exact ⟨e :: ys, by simp [enrichList, he, hys, bind, Except.bind], by simp [hlen]⟩

/-- C3: for an accepted key whose raw partition file holds a JSON array of
N posts (each with a well-formed text selection), the handler writes the
enriched file of the same N posts at the `ticker-date.json` destination
key and then deletes the raw partition file; the delete is issued exactly
when the destination write succeeded, and after a successful run the
destination object holds the N enriched posts while the raw object is
absent. -/
theorem C3_enrichment_roundtrip :
    ∀ (env : EnrEnv) (st : EnrState) (r : SRec) (t d dk : String) (xs : List Json),
      acceptKey r.key = some (t, d, dk) →
      lookupA st.src (r.bucket, r.key) = some (.arr xs) →
      xs.all (fun tw => isOkE (selectText tw)) = true →
      ((processRecord env st r).delIssued = (processRecord env st r).wrote) ∧
      (env.putFails dk = false → env.deleteFails (r.bucket, r.key) = false →
        ∃ ys, enrichList env.classify xs = .ok ys ∧ ys.length = xs.length ∧
          (processRecord env st r).out = .processed ∧
          lookupA (processRecord env st r).st.dst dk = some (.arr ys) ∧
          lookupA (processRecord env st r).st.src (r.bucket, r.key) = none) := by
  intro env st r t d dk xs hacc hsrc hall
  obtain ⟨ys, hys, hlen⟩ := enrichList_ok env.classify xs hall
  have hpf : processFile env.classify (.arr xs) = .ok (.arr ys) := by
    simp [processFile, hys, bind, Except.bind]
  constructor
  · simp only [processRecord, hacc, hsrc, hpf]
    by_cases h1 : env.putFails dk
    · simp [h1]
    · by_cases h2 : env.deleteFails (r.bucket, r.key) <;> simp [h1, h2]
  · intro hput hdel
    refine ⟨ys, hys, hlen, ?_, ?_, ?_⟩ <;>
      simp [processRecord, hacc, hsrc, hpf, hput, hdel, lookupA_setA_self,
        lookupA_removeA_self]

/-- Witness for C3 at a concrete input: one raw file with one post, a
classifier that raises (the post falls back to the sentinel), no storage
failures. -/
theorem C3_enrichment_roundtrip_witness :
    ((processRecord ⟨fun _ => .error (), fun _ => false, fun _ => false⟩
      ⟨[(("b", "tweets/A.json/date=2024-01-01/data.json"),
          .arr [.obj [("content", .str "hi")]])], []⟩
      ⟨"b", "tweets/A.json/date=2024-01-01/data.json"⟩).delIssued =
     (processRecord ⟨fun _ => .error (), fun _ => false, fun _ => false⟩
      ⟨[(("b", "tweets/A.json/date=2024-01-01/data.json"),
          .arr [.obj [("content", .str "hi")]])], []⟩
      ⟨"b", "tweets/A.json/date=2024-01-01/data.json"⟩).wrote) ∧
    (∃ ys, enrichList (fun _ => (.error () : Except Unit Json))
        [.obj [("content", .str "hi")]] = .ok ys ∧
      ys.length = [Json.obj [("content", Json.str "hi")]].length ∧
      (processRecord ⟨fun _ => .error (), fun _ => false, fun _ => false⟩
        ⟨[(("b", "tweets/A.json/date=2024-01-01/data.json"),
            .arr [.obj [("content", .str "hi")]])], []⟩
        ⟨"b", "tweets/A.json/date=2024-01-01/data.json"⟩).out = .processed ∧
      lookupA (processRecord ⟨fun _ => .error (), fun _ => false, fun _ => false⟩
        ⟨[(("b", "tweets/A.json/date=2024-01-01/data.json"),
            .arr [.obj [("content", .str "hi")]])], []⟩
        ⟨"b", "tweets/A.json/date=2024-01-01/data.json"⟩).st.dst
        "A-2024-01-01.json" = some (.arr ys) ∧
      lookupA (processRecord ⟨fun _ => .error (), fun _ => false, fun _ => false⟩
        ⟨[(("b", "tweets/A.json/date=2024-01-01/data.json"),
            .arr [.obj [("content", .str "hi")]])], []⟩
        ⟨"b", "tweets/A.json/date=2024-01-01/data.json"⟩).st.src
        ("b", "tweets/A.json/date=2024-01-01/data.json") = none) := by
  have h := C3_enrichment_roundtrip
    ⟨fun _ => .error (), fun _ => false, fun _ => false⟩
    ⟨[(("b", "tweets/A.json/date=2024-01-01/data.json"),
        .arr [.obj [("content", .str "hi")]])], []⟩
    ⟨"b", "tweets/A.json/date=2024-01-01/data.json"⟩
    "A" "2024-01-01" "A-2024-01-01.json" [.obj [("content", .str "hi")]]
    rfl rfl rfl
  exact ⟨h.1, h.2 rfl rfl⟩

/-! ## Lemmas about the enrichment batch loop -/

theorem processRecord_src_none (env : EnrEnv) (st : EnrState) (r : SRec) (x : String × String)
    (h : lookupA st.src x = none) :
    lookupA (processRecord env st r).st.src x = none := by
  cases hacc : acceptKey r.key with
  | none => simp [processRecord, hacc, h]
  | some v =>
    obtain ⟨t, d, dk⟩ := v
    cases hsrc : lookupA st.src (r.bucket, r.key) with
    | none => simp [processRecord, hacc, hsrc, h]
    | some body =>
      cases hpf : processFile env.classify body with
      | error e => simp [processRecord, hacc, hsrc, hpf, h]
      | ok enr =>
        by_cases h1 : env.putFails dk
        · simp [processRecord, hacc, hsrc, hpf, h1, h]
        · by_cases h2 : env.deleteFails (r.bucket, r.key)
          · simp [processRecord, hacc, hsrc, hpf, h1, h2, h]
          · simp [processRecord, hacc, hsrc, hpf, h1, h2, lookupA_removeA_none _ _ _ h]

theorem processRecord_skipped_iff (env : EnrEnv) (st : EnrState) (r : SRec) :
    (processRecord env st r).out = .skipped ↔ acceptKey r.key = none := by
  cases hacc : acceptKey r.key with
  | none => simp [processRecord, hacc]
  | some v =>
    obtain ⟨t, d, dk⟩ := v
    cases hsrc : lookupA st.src (r.bucket, r.key) with
    | none => simp [processRecord, hacc, hsrc]
    | some body =>
      cases hpf : processFile env.classify body with
      | error e => simp [processRecord, hacc, hsrc, hpf]
      | ok enr =>
        by_cases h1 : env.putFails dk
        · simp [processRecord, hacc, hsrc, hpf, h1]
        · by_cases h2 : env.deleteFails (r.bucket, r.key) <;>
            simp [processRecord, hacc, hsrc, hpf, h1, h2]

theorem handlerLoop_cons (env : EnrEnv) (st : EnrState) (r : SRec) (rest : List SRec) :
    handlerLoop env st (r :: rest) =
      ⟨(match (processRecord env st r).out with | .processed => [r.key] | _ => []) ++
          (handlerLoop env (processRecord env st r).st rest).processed,
        (match (processRecord env st r).out with | .failed e => [(r.key, e)] | _ => []) ++
          (handlerLoop env (processRecord env st r).st rest).failed,
        (handlerLoop env (processRecord env st r).st rest).st,
        (processRecord env st r).tr ++ (handlerLoop env (processRecord env st r).st rest).tr⟩ :=
  rfl

theorem processRecord_nosuchkey (env : EnrEnv) (st : EnrState) (r : SRec)
    (v : String × String × String) (hacc : acceptKey r.key = some v)
    (hsrc : lookupA st.src (r.bucket, r.key) = none) :
    processRecord env st r =
      ⟨st, .failed "NoSuchKey", false, false, [.get (r.bucket, r.key)]⟩ := by
  obtain ⟨t, d, dk⟩ := v
  simp [processRecord, hacc, hsrc]

/-- C7: the handler returns the aggregate `processed` and `failed` lists
and processes every record of the batch — each accepted record contributes
exactly one entry, to `processed` or to `failed`, so a failure on one file
does not prevent the processing of the others; in particular a re-delivered
notification for a key whose source object is already absent (for example
already deleted) is recorded as a `NoSuchKey` failure for that key while
the rest of the batch still runs. -/
theorem C7_batch_isolation :
    ∀ (env : EnrEnv) (st : EnrState) (rs : List SRec),
      ((handlerLoop env st rs).processed.length + (handlerLoop env st rs).failed.length
        = rs.countP (fun r => (acceptKey r.key).isSome)) ∧
      (∀ r ∈ rs, (acceptKey r.key).isSome = true →
        lookupA st.src (r.bucket, r.key) = none →
        (r.key, "NoSuchKey") ∈ (handlerLoop env st rs).failed) := by
  intro env st rs
  induction rs generalizing st with
  | nil => simp [handlerLoop]
  | cons r rest ih =>
    constructor
    · have hcount := (ih (processRecord env st r).st).1
      rw [handlerLoop_cons]
      dsimp only
      rw [List.length_append, List.length_append, List.countP_cons]
      cases hout : (processRecord env st r).out with
      | skipped =>
        have hacc : acceptKey r.key = none := (processRecord_skipped_iff env st r).mp hout
        simp only [hacc, Option.isSome_none, List.length_nil]
        simp only [Bool.false_eq_true, if_false]
        omega
      | processed =>
        have hacc : (acceptKey r.key).isSome = true := by
          cases hk : acceptKey r.key with
          | none =>
            have hsk := (processRecord_skipped_iff env st r).mpr hk
            rw [hout] at hsk
            exact absurd hsk (by simp)
          | some v => simp
        simp only [hacc, List.length_singleton, List.length_nil, if_true]
        omega
      | failed e =>
        have hacc : (acceptKey r.key).isSome = true := by
          cases hk : acceptKey r.key with
          | none =>
            have hsk := (processRecord_skipped_iff env st r).mpr hk
            rw [hout] at hsk
            exact absurd hsk (by simp)
          | some v => simp
        simp only [hacc, List.length_singleton, List.length_nil, if_true]
        omega
    · intro r' hr' hacc hsrc
      rcases List.mem_cons.mp hr' with heq | hmem
      · subst heq
        obtain ⟨v, hv⟩ := Option.isSome_iff_exists.mp hacc
        have hpr := processRecord_nosuchkey env st r' v hv hsrc
        simp only [handlerLoop, hpr]
        exact List.mem_append_left _ (List.mem_singleton_self _)
      · have hsrc' := processRecord_src_none env st r (r'.bucket, r'.key) hsrc
        have hmem' := (ih (processRecord env st r).st).2 r' hmem hacc hsrc'
        simp only [handlerLoop]
        exact List.mem_append_right _ hmem'

/-- Witness for C7 at a concrete batch: the first record's file is present
and processed; the second record's key is valid but its file is absent (a
re-delivery after deletion) and is recorded as a `NoSuchKey` failure; both
accepted records are accounted for. -/
theorem C7_batch_isolation_witness :
    ((handlerLoop ⟨fun _ => .error (), fun _ => false, fun _ => false⟩
        ⟨[(("b", "tweets/A.json/date=2024-01-01/data.json"), .arr [])], []⟩
        [⟨"b", "tweets/A.json/date=2024-01-01/data.json"⟩,
         ⟨"b", "tweets/B.json/date=2024-01-01/data.json"⟩]).processed.length +
      (handlerLoop ⟨fun _ => .error (), fun _ => false, fun _ => false⟩
        ⟨[(("b", "tweets/A.json/date=2024-01-01/data.json"), .arr [])], []⟩
        [⟨"b", "tweets/A.json/date=2024-01-01/data.json"⟩,
         ⟨"b", "tweets/B.json/date=2024-01-01/data.json"⟩]).failed.length
      = List.countP (fun r => (acceptKey r.key).isSome)
          [(⟨"b", "tweets/A.json/date=2024-01-01/data.json"⟩ : SRec),
           ⟨"b", "tweets/B.json/date=2024-01-01/data.json"⟩]) ∧
    ("tweets/B.json/date=2024-01-01/data.json", "NoSuchKey") ∈
      (handlerLoop ⟨fun _ => .error (), fun _ => false, fun _ => false⟩
        ⟨[(("b", "tweets/A.json/date=2024-01-01/data.json"), .arr [])], []⟩
        [⟨"b", "tweets/A.json/date=2024-01-01/data.json"⟩,
         ⟨"b", "tweets/B.json/date=2024-01-01/data.json"⟩]).failed := by
  have h := C7_batch_isolation ⟨fun _ => .error (), fun _ => false, fun _ => false⟩
    ⟨[(("b", "tweets/A.json/date=2024-01-01/data.json"), .arr [])], []⟩
    [⟨"b", "tweets/A.json/date=2024-01-01/data.json"⟩,
     ⟨"b", "tweets/B.json/date=2024-01-01/data.json"⟩]
  exact ⟨h.1, h.2 ⟨"b", "tweets/B.json/date=2024-01-01/data.json"⟩ (by simp) rfl rfl⟩
